import Mathlib

/-!
Verification of the TT rum model (DataS-DHSC/TT_rum_model) against its
natural-language specification.

The repository computes, for a test-trace-isolate program, the probability
that onward transmission is averted.  The embedding below models the
probability-composition core:

* a dataframe with a delay column and a frequency column becomes `DelayPMF`,
  a pair of lists (delays in hours, rational frequencies);
* numpy floating point numbers become exact rationals (`Rat`); note that
  `x / 0 = 0` in `Rat`, where numpy would produce `inf`/`NaN` silently;
* `np.convolve(a, v, mode)` with mode "same" becomes `convolveSame`, the
  centred slice of the full discrete convolution, following numpy's
  slicing rule (drop `(min len - 1) / 2`, take `max len`);
* dataframe row filtering followed by `.sum()` becomes `dfFilterSum`;
* the functions `get_time_to_tertiary_infection`,
  `get_contact_isolation_impact`, `get_symptom_and_contact_success`
  (rum_model/parameters.py) and `TT_model_rum` (rum_model/model.py) are
  translated line by line;
* the contact-tracing file processing `process_TT_e2e_file`
  (rum_model/utils.py) is translated with the external cubic interpolant
  (`scipy.interpolate.interp1d(..., kind = cubic)`) abstracted as a
  function parameter, since the claims about it concern only the delay
  axis and the normalisation, which do not depend on the interpolant's
  values.
-/

/-- A discretised delay distribution: the `delay`/`frequency` dataframe of
the source, with delays in hours and exact rational frequencies. -/
structure DelayPMF where
  delay : List Int
  frequency : List Rat

/-- Pandas pattern `df[p(df.delay)].frequency.sum()`: filter the rows of a
delay/frequency dataframe by a predicate on the delay and sum the
frequencies of the surviving rows. -/
def dfFilterSum (p : Int → Bool) (d : List Int) (f : List Rat) : Rat :=
  (((d.zip f).filter (fun z => p z.1)).map (fun z => z.2)).sum

/-- Entry `k` of the full discrete convolution of two frequency arrays
(out-of-range indices contribute zero). -/
def convEntry (a v : List Rat) (k : Nat) : Rat :=
  ((List.range (k + 1)).map (fun i => a.getD i 0 * v.getD (k - i) 0)).sum

/-- Full discrete convolution, as computed by `np.convolve(a, v, "full")`:
output length `a.length + v.length - 1`. -/
def convolveFull (a v : List Rat) : List Rat :=
  (List.range (a.length + v.length - 1)).map (convEntry a v)

/-- `np.convolve(a, v, "same")`: the centred slice of the full convolution
of length `max a.length v.length`, starting at `(min a.length v.length - 1) / 2`. -/
def convolveSame (a v : List Rat) : List Rat :=
  ((convolveFull a v).drop ((min a.length v.length - 1) / 2)).take (max a.length v.length)

/-- Pandas pattern `l / l.sum()`: divide every frequency by the total
mass.  In exact rational arithmetic a zero total yields the all-zero list
(where numpy would silently produce `NaN`s). -/
def normalizeFreq (l : List Rat) : List Rat :=
  l.map (fun x => x / l.sum)

/-- rum_model/parameters.py, `get_time_to_tertiary_infection`: convolve the
secondary-symptoms-to-tertiary distribution with the serial interval
("same" mode), keeping the delay axis of the first argument.  Note: the
source does not renormalise the result. -/
def get_time_to_tertiary_infection
    (secondary_symptoms_to_tertiary symptoms_to_symptoms : DelayPMF) : DelayPMF :=
  ⟨secondary_symptoms_to_tertiary.delay,
   convolveSame secondary_symptoms_to_tertiary.frequency symptoms_to_symptoms.frequency⟩

/-- rum_model/parameters.py, `get_contact_isolation_impact`: convolve the
time-to-tertiary-infection frequencies with the reversed
total-time-to-contact frequencies ("same" mode) and sum the resulting mass
at delays strictly greater than zero. -/
def get_contact_isolation_impact
    (time_to_tertiary_infection total_time_to_contact : DelayPMF) : Rat :=
  dfFilterSum (fun d => decide (0 < d)) time_to_tertiary_infection.delay
    (convolveSame time_to_tertiary_infection.frequency
      total_time_to_contact.frequency.reverse)

/-- The in-place filter `df.loc[df.delay < 0, "frequency"] = 0` applied to
a delay/frequency dataframe (rum_model/parameters.py line 346). -/
def hardZeroNegative (p : DelayPMF) : DelayPMF :=
  ⟨p.delay, List.zipWith (fun d x => if d < 0 then 0 else x) p.delay p.frequency⟩

/-- rum_model/parameters.py, `get_symptom_and_contact_success`: hard-zero
the negative delays of the secondary-symptoms-to-tertiary distribution,
renormalise, recompute the time to tertiary infection and the conditional
contact impact, and multiply out the scalar factors in the source's
order. -/
def get_symptom_and_contact_success
    (symptom_isolation_success symptomatic_rate symptomatic_ascertainment_rate
     compliance_with_contact_isolation percentage_notified : Rat)
    (secondary_symptoms_to_tertiary serial_interval total_time_to_contact : DelayPMF) : Rat :=
  let conditioned : DelayPMF :=
    ⟨(hardZeroNegative secondary_symptoms_to_tertiary).delay,
     normalizeFreq (hardZeroNegative secondary_symptoms_to_tertiary).frequency⟩
  let ttt := get_time_to_tertiary_infection conditioned serial_interval
  let conditional_contact_impact := get_contact_isolation_impact ttt total_time_to_contact
  symptom_isolation_success * symptomatic_rate * symptomatic_ascertainment_rate *
    percentage_notified * compliance_with_contact_isolation * conditional_contact_impact

/-- The `contributions_dict` returned by `TT_model_rum`
(rum_model/model.py lines 125-139), with one field per dictionary key. -/
structure Contributions where
  primary_tested : Rat
  adherence_symptom_isolation : Rat
  adherence_symptom_isolation_impact : Rat
  symptom_isolation_success : Rat
  proportion_contacts_reached : Rat
  proportion_contacts_reached_compliant : Rat
  adherence_contact_isolation_impact : Rat
  contact_isolation_success : Rat
  transmission_pre_contact : Rat
  transmission_occuring_pre_symptom : Rat
  transmission_averted : Rat
  marginal_impact : Rat
  symptom_and_contact_success : Rat

/-- rum_model/model.py, `TT_model_rum`, translated line by line; parameter
order follows the source signature. -/
def TT_model_rum
    (symptomatic_ascertainment_rate symptomatic_rate percentage_notified
     compliance_with_symptom_isolation_test compliance_with_symptom_isolation_no_test
     compliance_with_contact_isolation : Rat)
    (serial_interval secondary_symptoms_to_tertiary
     time_to_tertiary_infection total_time_to_contact : DelayPMF) : Contributions :=
  let adherence_symptom_isolation :=
    symptomatic_rate * symptomatic_ascertainment_rate *
      compliance_with_symptom_isolation_test +
    (1 - symptomatic_ascertainment_rate) * symptomatic_rate *
      compliance_with_symptom_isolation_no_test
  let adherence_symptom_isolation_impact :=
    dfFilterSum (fun d => decide (0 ≤ d)) secondary_symptoms_to_tertiary.delay
      secondary_symptoms_to_tertiary.frequency
  let symptom_isolation_success :=
    adherence_symptom_isolation_impact * adherence_symptom_isolation
  let primary_tested := symptomatic_rate * symptomatic_ascertainment_rate
  let proportion_contacts_reached := primary_tested * percentage_notified
  let proportion_contacts_reached_compliant :=
    proportion_contacts_reached * compliance_with_contact_isolation
  let adherence_contact_isolation_impact :=
    get_contact_isolation_impact time_to_tertiary_infection total_time_to_contact
  let proportion_transmission_pre_contact := 1 - adherence_contact_isolation_impact
  let transmission_occuring_pre_symptom := 1 - adherence_symptom_isolation_impact
  let contact_isolation_success :=
    proportion_contacts_reached_compliant * adherence_contact_isolation_impact
  let symptom_and_contact_success :=
    get_symptom_and_contact_success symptom_isolation_success symptomatic_rate
      symptomatic_ascertainment_rate compliance_with_contact_isolation
      percentage_notified secondary_symptoms_to_tertiary serial_interval
      total_time_to_contact
  let overall_success :=
    symptom_isolation_success + contact_isolation_success - symptom_and_contact_success
  let marginal_impact := overall_success - symptom_isolation_success
  { primary_tested := primary_tested
    adherence_symptom_isolation := adherence_symptom_isolation
    adherence_symptom_isolation_impact := adherence_symptom_isolation_impact
    symptom_isolation_success := symptom_isolation_success
    proportion_contacts_reached := proportion_contacts_reached
    proportion_contacts_reached_compliant := proportion_contacts_reached_compliant
    adherence_contact_isolation_impact := adherence_contact_isolation_impact
    contact_isolation_success := contact_isolation_success
    transmission_pre_contact := proportion_transmission_pre_contact
    transmission_occuring_pre_symptom := transmission_occuring_pre_symptom
    transmission_averted := overall_success
    marginal_impact := marginal_impact
    symptom_and_contact_success := symptom_and_contact_success }

/-- The dictionary literal of rum_model/model.py lines 125-139, as an
association list in the source's key order. -/
def contributionsList (c : Contributions) : List (String × Rat) :=
  [("primary_tested", c.primary_tested),
   ("adherence_symptom_isolation", c.adherence_symptom_isolation),
   ("adherence_symptom_isolation_impact", c.adherence_symptom_isolation_impact),
   ("symptom_isolation_success", c.symptom_isolation_success),
   ("proportion_contacts_reached", c.proportion_contacts_reached),
   ("proportion_contacts_reached_compliant", c.proportion_contacts_reached_compliant),
   ("adherence_contact_isolation_impact", c.adherence_contact_isolation_impact),
   ("contact_isolation_success", c.contact_isolation_success),
   ("transmission_pre_contact", c.transmission_pre_contact),
   ("transmission_occuring_pre_symptom", c.transmission_occuring_pre_symptom),
   ("transmission_averted", c.transmission_averted),
   ("marginal_impact", c.marginal_impact),
   ("symptom_and_contact_success", c.symptom_and_contact_success)]

/-- Specification-side description of `tail_probability_positive` (spec
section 4.3): convolve `dist_a` with the reversal of `dist_b` in "same"
mode and sum the frequency mass strictly above delay zero, tie mass at
delay exactly zero contributing nothing. -/
def tail_probability_positive (dist_a dist_b : DelayPMF) : Rat :=
  (List.zipWith (fun d x => if 0 < d then x else 0) dist_a.delay
    (convolveSame dist_a.frequency dist_b.frequency.reverse)).sum

/-- A unit-mass distribution concentrated at delay +1 on the axis
`[-1, 0, 1]`; used as a concrete evaluation input. -/
def unitPMF : DelayPMF := ⟨[-1, 0, 1], [0, 0, 1]⟩

/-- A unit-mass distribution concentrated at delay 0 on the axis
`[-1, 0, 1]`; used as a concrete evaluation input. -/
def centerPMF : DelayPMF := ⟨[-1, 0, 1], [0, 1, 0]⟩

/-- A distribution on the axis `[-2, -1, 0]` whose mass sits entirely at
strictly negative delays; used as a concrete evaluation input. -/
def negMassPMF : DelayPMF := ⟨[-2, -1, 0], [1, 1, 0]⟩

/-- Filtering then summing a dataframe is the sum of the entrywise
masked frequencies. -/
theorem dfFilterSum_eq_zipWith (p : Int → Bool) (d : List Int) (f : List Rat) :
    dfFilterSum p d f =
      (List.zipWith (fun δ x => if p δ then x else 0) d f).sum := by
  induction d generalizing f with
  | nil => simp [dfFilterSum]
  | cons δ d ih =>
    cases f with
    | nil => simp [dfFilterSum]
    | cons x f =>
      have ihx := ih f
      simp only [dfFilterSum, List.zip_cons_cons, List.filter_cons,
        List.zipWith_cons_cons, List.sum_cons] at *
      cases h : p δ with
      | false => simpa [h] using ihx
      | true => simpa [h] using congrArg (fun t => x + t) ihx

/-- Claim C1: for every scenario-parameter vector and every
time-distribution bundle, the result record of `TT_model_rum` satisfies
the inclusion-exclusion identity
`transmission_averted = symptom_isolation_success + contact_isolation_success - symptom_and_contact_success`
and `marginal_impact = transmission_averted - symptom_isolation_success`. -/
theorem claim_c1_inclusion_exclusion
    (asc rate pn cst csnt cci : Rat) (si sst ttt ttc : DelayPMF) :
    (TT_model_rum asc rate pn cst csnt cci si sst ttt ttc).transmission_averted =
      (TT_model_rum asc rate pn cst csnt cci si sst ttt ttc).symptom_isolation_success +
      (TT_model_rum asc rate pn cst csnt cci si sst ttt ttc).contact_isolation_success -
      (TT_model_rum asc rate pn cst csnt cci si sst ttt ttc).symptom_and_contact_success ∧
    (TT_model_rum asc rate pn cst csnt cci si sst ttt ttc).marginal_impact =
      (TT_model_rum asc rate pn cst csnt cci si sst ttt ttc).transmission_averted -
      (TT_model_rum asc rate pn cst csnt cci si sst ttt ttc).symptom_isolation_success :=
  ⟨rfl, rfl⟩

/-- Claim C5: the adherence-to-symptom-isolation entry computed by
`TT_model_rum` equals
`symptomatic_rate * (ascertainment * compliance_test + (1 - ascertainment) * compliance_no_test)`. -/
theorem claim_c5_adherence_formula
    (asc rate pn cst csnt cci : Rat) (si sst ttt ttc : DelayPMF) :
    (TT_model_rum asc rate pn cst csnt cci si sst ttt ttc).adherence_symptom_isolation =
      rate * (asc * cst + (1 - asc) * csnt) := by
  show rate * asc * cst + (1 - asc) * rate * csnt = rate * (asc * cst + (1 - asc) * csnt)
  ring

/-- Claim C10: the result record of `TT_model_rum` satisfies the
complement identities
`transmission_pre_contact = 1 - adherence_contact_isolation_impact` and
`transmission_occuring_pre_symptom = 1 - adherence_symptom_isolation_impact`. -/
theorem claim_c10_complement_identities
    (asc rate pn cst csnt cci : Rat) (si sst ttt ttc : DelayPMF) :
    (TT_model_rum asc rate pn cst csnt cci si sst ttt ttc).transmission_pre_contact =
      1 - (TT_model_rum asc rate pn cst csnt cci si sst ttt ttc).adherence_contact_isolation_impact ∧
    (TT_model_rum asc rate pn cst csnt cci si sst ttt ttc).transmission_occuring_pre_symptom =
      1 - (TT_model_rum asc rate pn cst csnt cci si sst ttt ttc).adherence_symptom_isolation_impact :=
  ⟨rfl, rfl⟩

/-- Claim C4: with `percentage_notified = 0` the contact-side metrics of
the result record vanish, `transmission_averted` collapses to
`symptom_isolation_success` exactly, and `marginal_impact` is zero. -/
theorem claim_c4_zero_notification
    (asc rate cst csnt cci : Rat) (si sst ttt ttc : DelayPMF) :
    (TT_model_rum asc rate 0 cst csnt cci si sst ttt ttc).proportion_contacts_reached = 0 ∧
    (TT_model_rum asc rate 0 cst csnt cci si sst ttt ttc).proportion_contacts_reached_compliant = 0 ∧
    (TT_model_rum asc rate 0 cst csnt cci si sst ttt ttc).contact_isolation_success = 0 ∧
    (TT_model_rum asc rate 0 cst csnt cci si sst ttt ttc).symptom_and_contact_success = 0 ∧
    (TT_model_rum asc rate 0 cst csnt cci si sst ttt ttc).transmission_averted =
      (TT_model_rum asc rate 0 cst csnt cci si sst ttt ttc).symptom_isolation_success ∧
    (TT_model_rum asc rate 0 cst csnt cci si sst ttt ttc).marginal_impact = 0 := by
  refine ⟨?_, ?_, ?_, ?_, ?_, ?_⟩ <;>
    simp [TT_model_rum, get_symptom_and_contact_success]

/-- Claim C6: `get_contact_isolation_impact` equals the spec-side tail
probability: the mass of the "same"-mode convolution of the first
frequency array with the reversed second frequency array, summed over
delays strictly greater than zero (delay exactly zero excluded). -/
theorem claim_c6_tail_probability (a b : DelayPMF) :
    get_contact_isolation_impact a b = tail_probability_positive a b := by
  unfold get_contact_isolation_impact tail_probability_positive
  rw [dfFilterSum_eq_zipWith]
  simp only [decide_eq_true_eq]

/-- Claim C8 counterexample: the result record of `TT_model_rum` has 13
keys, not the 12 the specification announces. -/
theorem claim_c8_counterexample :
    (contributionsList (TT_model_rum 0 0 0 0 0 0 centerPMF centerPMF centerPMF centerPMF)).length = 13 ∧
    (13 : Nat) ≠ 12 :=
  ⟨rfl, by decide⟩

/-- Claim C8 (amended): for every input the result record's key sequence
is exactly the thirteen metric names enumerated in the specification's
external-interface section, in the source's order. -/
theorem claim_c8_key_set
    (asc rate pn cst csnt cci : Rat) (si sst ttt ttc : DelayPMF) :
    (contributionsList (TT_model_rum asc rate pn cst csnt cci si sst ttt ttc)).map Prod.fst =
      ["primary_tested",
       "adherence_symptom_isolation",
       "adherence_symptom_isolation_impact",
       "symptom_isolation_success",
       "proportion_contacts_reached",
       "proportion_contacts_reached_compliant",
       "adherence_contact_isolation_impact",
       "contact_isolation_success",
       "transmission_pre_contact",
       "transmission_occuring_pre_symptom",
       "transmission_averted",
       "marginal_impact",
       "symptom_and_contact_success"] :=
  rfl

/-- Out-of-range or member, the `getD` of an all-zero list is zero. -/
theorem getD_eq_zero_of_all_zero {l : List Rat} (h : ∀ x ∈ l, x = 0) (i : Nat) :
    l.getD i 0 = 0 := by
  by_cases hi : i < l.length
  · rw [List.getD_eq_getElem l 0 hi]
    exact h _ (List.getElem_mem hi)
  · exact List.getD_eq_default _ _ (le_of_not_lt hi)

/-- Every convolution entry against an all-zero first operand is zero. -/
theorem convEntry_eq_zero {a : List Rat} (v : List Rat)
    (h : ∀ x ∈ a, x = 0) (k : Nat) : convEntry a v k = 0 := by
  apply List.sum_eq_zero
  intro x hx
  rcases List.mem_map.1 hx with ⟨i, _, rfl⟩
  rw [getD_eq_zero_of_all_zero h, zero_mul]

/-- The "same"-mode convolution of an all-zero list with anything is
all-zero. -/
theorem convolveSame_all_zero {a : List Rat} (v : List Rat)
    (h : ∀ x ∈ a, x = 0) : ∀ x ∈ convolveSame a v, x = 0 := by
  intro x hx
  have hx' : x ∈ convolveFull a v :=
    List.mem_of_mem_drop (List.mem_of_mem_take hx)
  rcases List.mem_map.1 hx' with ⟨k, _, rfl⟩
  exact convEntry_eq_zero v h k

/-- Filter-summing an all-zero frequency column gives zero. -/
theorem dfFilterSum_all_zero (p : Int → Bool) (d : List Int) {f : List Rat}
    (h : ∀ x ∈ f, x = 0) : dfFilterSum p d f = 0 := by
  apply List.sum_eq_zero
  intro x hx
  rcases List.mem_map.1 hx with ⟨z, hz, rfl⟩
  exact h _ (List.of_mem_zip (List.mem_filter.1 hz).1).2

/-- Renormalising a zero-mass frequency column yields the all-zero column
in exact rational arithmetic. -/
theorem normalizeFreq_all_zero {l : List Rat} (h : l.sum = 0) :
    ∀ x ∈ normalizeFreq l, x = 0 := by
  intro x hx
  rcases List.mem_map.1 hx with ⟨y, _, rfl⟩
  rw [h, div_zero]

/-- Renormalising a frequency column of nonzero total mass yields total
mass exactly one. -/
theorem normalizeFreq_sum_eq_one {l : List Rat} (h : l.sum ≠ 0) :
    (normalizeFreq l).sum = 1 := by
  unfold normalizeFreq
  simp only [div_eq_mul_inv]
  rw [List.sum_map_mul_right l (fun b => b) l.sum⁻¹, List.map_id'']
  · exact mul_inv_cancel₀ h
  · exact fun x => rfl

/-- Claim C3 counterexample: two unit-mass input PMFs for which the
time-to-tertiary-infection PMF produced by `get_time_to_tertiary_infection`
has total frequency mass 0, not 1: the "same"-mode convolution truncates
the mass and the source applies no renormalisation. -/
theorem claim_c3_counterexample :
    unitPMF.frequency.sum = 1 ∧
    (get_time_to_tertiary_infection unitPMF unitPMF).frequency.sum = 0 := by
  constructor
  · norm_num [unitPMF]
  · norm_num [get_time_to_tertiary_infection, convolveSame, convolveFull, convEntry,
      unitPMF, List.range_succ]

/-- Claim C3 (amended): the renormalising filter step of
`get_symptom_and_contact_success` (hard-zeroing negative delays and then
renormalising) restores total frequency mass exactly 1 whenever the mass
surviving the filter is nonzero; the unrenormalised output of
`get_time_to_tertiary_infection` carries no such guarantee. -/
theorem claim_c3_renormalized_mass (sst : DelayPMF)
    (h : (hardZeroNegative sst).frequency.sum ≠ 0) :
    (normalizeFreq (hardZeroNegative sst).frequency).sum = 1 :=
  normalizeFreq_sum_eq_one h

/-- Claim C3 witness: the renormalised-mass theorem evaluated on a
concrete distribution with surviving mass. -/
theorem claim_c3_renormalized_mass_witness :
    (normalizeFreq (hardZeroNegative centerPMF).frequency).sum = 1 :=
  claim_c3_renormalized_mass centerPMF (by norm_num [hardZeroNegative, centerPMF])

/-- Claim C7 counterexample: a secondary-symptoms-to-tertiary distribution
whose positive-delay mass is zero, on which `get_symptom_and_contact_success`
does not fail: the zero-mass renormalisation divides by zero and the
function silently returns the zero-filled value 0 (in floating point, a
silent `NaN`), with no error raised for the scenario. -/
theorem claim_c7_counterexample :
    (hardZeroNegative negMassPMF).frequency.sum = 0 ∧
    get_symptom_and_contact_success 1 1 1 1 1 negMassPMF centerPMF centerPMF = 0 := by
  constructor
  · norm_num [hardZeroNegative, negMassPMF]
  · norm_num [get_symptom_and_contact_success, get_time_to_tertiary_infection,
      get_contact_isolation_impact, hardZeroNegative, normalizeFreq, convolveSame,
      convolveFull, convEntry, dfFilterSum, negMassPMF, centerPMF, List.range_succ]

/-- Claim C7 (amended): whenever hard-zeroing the negative delays leaves
zero total mass, `get_symptom_and_contact_success` raises no error and
silently returns the degenerate value 0 (exact arithmetic; floating point
would propagate `NaN`), for every setting of the scalar parameters and
the other distributions. -/
theorem claim_c7_degenerate_returns_zero
    (sis rate asc cci pn : Rat) (sst si ttc : DelayPMF)
    (h : (hardZeroNegative sst).frequency.sum = 0) :
    get_symptom_and_contact_success sis rate asc cci pn sst si ttc = 0 := by
  rw [show get_symptom_and_contact_success sis rate asc cci pn sst si ttc =
      sis * rate * asc * pn * cci *
        dfFilterSum (fun d => decide (0 < d)) (hardZeroNegative sst).delay
          (convolveSame
            (convolveSame (normalizeFreq (hardZeroNegative sst).frequency) si.frequency)
            ttc.frequency.reverse) from rfl]
  have h0 : ∀ x ∈ normalizeFreq (hardZeroNegative sst).frequency, x = 0 :=
    normalizeFreq_all_zero h
  have h1 : ∀ x ∈ convolveSame (normalizeFreq (hardZeroNegative sst).frequency)
      si.frequency, x = 0 := convolveSame_all_zero _ h0
  have h2 : ∀ x ∈ convolveSame (convolveSame
      (normalizeFreq (hardZeroNegative sst).frequency) si.frequency)
      ttc.frequency.reverse, x = 0 := convolveSame_all_zero _ h1
  rw [dfFilterSum_all_zero _ _ h2, mul_zero]

/-- Claim C7 witness: the degenerate-scenario theorem evaluated at a
concrete zero-positive-mass distribution. -/
theorem claim_c7_degenerate_returns_zero_witness :
    get_symptom_and_contact_success 1 (1/2) (1/2) (1/2) (1/2) negMassPMF centerPMF unitPMF = 0 :=
  claim_c7_degenerate_returns_zero 1 (1/2) (1/2) (1/2) (1/2) negMassPMF centerPMF unitPMF
    (by norm_num [hardZeroNegative, negMassPMF])

/-- Minimum of a dataframe column, as `min(x)` over a nonempty series. -/
def listMin (l : List Rat) : Rat :=
  match l with
  | [] => 0
  | h :: t => t.foldl min h

/-- Maximum of a dataframe column, as `max(x)` over a nonempty series. -/
def listMax (l : List Rat) : Rat :=
  match l with
  | [] => 0
  | h :: t => t.foldl max h

/-- rum_model/utils.py line 59, `np.arange(math.ceil(min(x)), math.floor(max(x)), 1)`:
the consecutive integers from the ceiling of the smallest midpoint up to,
but excluding, the floor of the largest midpoint. -/
def e2eDelayAxis (x : List Rat) : List Int :=
  (List.range (⌊listMax x⌋ - ⌈listMin x⌉).toNat).map
    (fun i : Nat => ⌈listMin x⌉ + (i : Int))

/-- rum_model/utils.py, `process_TT_e2e_file`, applied to the decoded list
of interval midpoints.  The external cubic interpolant
`scipy.interpolate.interp1d(x, frequency, kind = cubic)` is abstracted as
the function parameter `interp`; the function evaluates it at the integer
delay axis and normalises the result twice, as the source does. -/
def process_TT_e2e_file (interp : Rat → Rat) (x : List Rat) : DelayPMF :=
  let x_new := e2eDelayAxis x
  let freq_new := x_new.map (fun d => interp (d : Rat))
  ⟨x_new, normalizeFreq (normalizeFreq freq_new)⟩

/-- Entry `i` of the interpolation axis is the start integer plus `i`. -/
theorem e2eDelayAxis_getElem (x : List Rat) (i : Nat)
    (h : i < (e2eDelayAxis x).length) :
    (e2eDelayAxis x)[i] = ⌈listMin x⌉ + (i : Int) := by
  unfold e2eDelayAxis at h ⊢
  rw [List.getElem_map, List.getElem_range]

/-- The interpolation axis consists of consecutive integers. -/
theorem e2eDelayAxis_chain (x : List Rat) :
    List.Chain' (fun a b => b = a + 1) (e2eDelayAxis x) := by
  unfold e2eDelayAxis
  rw [List.chain'_map]
  cases hN : (⌊listMax x⌋ - ⌈listMin x⌉).toNat with
  | zero => simp
  | succ n =>
    exact (List.chain'_range_succ _ n).2 (fun m hm => by push_cast; ring)

/-- The floor of the largest midpoint is never on the interpolation axis:
`np.arange` excludes its stop value. -/
theorem e2eDelayAxis_not_mem (x : List Rat) : ⌊listMax x⌋ ∉ e2eDelayAxis x := by
  intro hmem
  rcases List.mem_map.1 hmem with ⟨i, hi, heq⟩
  have hi0 : i < (⌊listMax x⌋ - ⌈listMin x⌉).toNat := List.mem_range.1 hi
  have hi1 : (i : Int) < ⌊listMax x⌋ - ⌈listMin x⌉ := Int.lt_toNat.1 hi0
  omega

/-- The smallest of the midpoints 0, 2, 5, 9. -/
theorem listMin_example : listMin [(0 : Rat), 2, 5, 9] = 0 := by
  norm_num [listMin]

/-- The largest of the midpoints 0, 2, 5, 9. -/
theorem listMax_example : listMax [(0 : Rat), 2, 5, 9] = 9 := by
  norm_num [listMax]

/-- The interpolation axis for the midpoints 0, 2, 5, 9 stops at 8. -/
theorem e2eDelayAxis_example :
    e2eDelayAxis [0, 2, 5, 9] = [0, 1, 2, 3, 4, 5, 6, 7, 8] := by
  unfold e2eDelayAxis
  rw [listMin_example, listMax_example]
  norm_num
  decide

/-- Claim C9 counterexample: for the four distinct midpoints 0, 2, 5, 9
the delay axis of `process_TT_e2e_file` is the integers 0..8; the right
endpoint `floor(max) = 9` is excluded, contradicting the claim that both
endpoints are included. -/
theorem claim_c9_counterexample :
    (process_TT_e2e_file (fun _ => (1 : Rat)) [0, 2, 5, 9]).delay =
      [0, 1, 2, 3, 4, 5, 6, 7, 8] ∧
    ⌊listMax [(0 : Rat), 2, 5, 9]⌋ = 9 ∧
    (9 : Int) ∉ (process_TT_e2e_file (fun _ => (1 : Rat)) [0, 2, 5, 9]).delay := by
  have hdelay : (process_TT_e2e_file (fun _ => (1 : Rat)) [0, 2, 5, 9]).delay =
      e2eDelayAxis [0, 2, 5, 9] := rfl
  refine ⟨?_, ?_, ?_⟩
  · rw [hdelay, e2eDelayAxis_example]
  · rw [listMax_example]
    norm_num
  · rw [hdelay, e2eDelayAxis_example]
    decide

/-- Claim C9 (amended): for every raw table of midpoints and every
interpolant, the delay axis of `process_TT_e2e_file` consists of the
consecutive integers starting at `ceil(min midpoint)` and stopping just
before `floor(max midpoint)` (the right endpoint excluded), and, when the
interpolated values have nonzero total mass, the twice-normalised
frequencies sum to exactly 1. -/
theorem claim_c9_axis_and_normalization (interp : Rat → Rat) (x : List Rat)
    (h4 : 4 ≤ x.dedup.length)
    (hm : ((e2eDelayAxis x).map (fun d => interp (d : Rat))).sum ≠ 0) :
    (process_TT_e2e_file interp x).delay.length =
      (⌊listMax x⌋ - ⌈listMin x⌉).toNat ∧
    (process_TT_e2e_file interp x).delay.getD 0 ⌈listMin x⌉ = ⌈listMin x⌉ ∧
    List.Chain' (fun a b => b = a + 1) (process_TT_e2e_file interp x).delay ∧
    ⌊listMax x⌋ ∉ (process_TT_e2e_file interp x).delay ∧
    (process_TT_e2e_file interp x).frequency.sum = 1 := by
  have hdelay : (process_TT_e2e_file interp x).delay = e2eDelayAxis x := rfl
  have hlen : (e2eDelayAxis x).length = (⌊listMax x⌋ - ⌈listMin x⌉).toNat := by
    unfold e2eDelayAxis
    rw [List.length_map, List.length_range]
  refine ⟨by rw [hdelay, hlen], ?_, ?_, ?_, ?_⟩
  · rw [hdelay]
    by_cases h0 : 0 < (e2eDelayAxis x).length
    · rw [List.getD_eq_getElem _ _ h0, e2eDelayAxis_getElem]
      rw [Nat.cast_zero, add_zero]
    · rw [List.getD_eq_default _ _ (le_of_not_lt h0)]
  · rw [hdelay]
    exact e2eDelayAxis_chain x
  · rw [hdelay]
    exact e2eDelayAxis_not_mem x
  · have hfreq : (process_TT_e2e_file interp x).frequency =
        normalizeFreq (normalizeFreq ((e2eDelayAxis x).map (fun d => interp (d : Rat)))) :=
      rfl
    rw [hfreq]
    have h1 : (normalizeFreq ((e2eDelayAxis x).map (fun d => interp (d : Rat)))).sum = 1 :=
      normalizeFreq_sum_eq_one hm
    apply normalizeFreq_sum_eq_one
    rw [h1]
    exact one_ne_zero

/-- Claim C9 witness: the amended axis-and-normalisation theorem evaluated
at a constant interpolant over the four midpoints 0, 2, 5, 9. -/
theorem claim_c9_axis_and_normalization_witness :
    (process_TT_e2e_file (fun _ => (1 : Rat)) [0, 2, 5, 9]).delay.length =
      (⌊listMax [(0 : Rat), 2, 5, 9]⌋ - ⌈listMin [(0 : Rat), 2, 5, 9]⌉).toNat ∧
    (process_TT_e2e_file (fun _ => (1 : Rat)) [0, 2, 5, 9]).delay.getD 0
        ⌈listMin [(0 : Rat), 2, 5, 9]⌉ = ⌈listMin [(0 : Rat), 2, 5, 9]⌉ ∧
    List.Chain' (fun a b => b = a + 1)
      (process_TT_e2e_file (fun _ => (1 : Rat)) [0, 2, 5, 9]).delay ∧
    ⌊listMax [(0 : Rat), 2, 5, 9]⌋ ∉
      (process_TT_e2e_file (fun _ => (1 : Rat)) [0, 2, 5, 9]).delay ∧
    (process_TT_e2e_file (fun _ => (1 : Rat)) [0, 2, 5, 9]).frequency.sum = 1 :=
  claim_c9_axis_and_normalization (fun _ => (1 : Rat)) [0, 2, 5, 9]
    (by decide)
    (by rw [e2eDelayAxis_example]; norm_num)

/-- A frequency column with no negative entries (all valid PMFs satisfy
this). -/
def NonnegList (l : List Rat) : Prop := ∀ x ∈ l, 0 ≤ x

/-- Defaulted indexing into a nonnegative column is nonnegative. -/
theorem nonneg_getD {l : List Rat} (h : NonnegList l) (i : Nat) :
    0 ≤ l.getD i 0 := by
  by_cases hi : i < l.length
  · rw [List.getD_eq_getElem l 0 hi]
    exact h _ (List.getElem_mem hi)
  · rw [List.getD_eq_default _ _ (le_of_not_lt hi)]

/-- Convolution entries of nonnegative columns are nonnegative. -/
theorem convEntry_nonneg {a v : List Rat} (ha : NonnegList a)
    (hv : NonnegList v) (k : Nat) : 0 ≤ convEntry a v k := by
  apply List.sum_nonneg
  intro x hx
  rcases List.mem_map.1 hx with ⟨i, _, rfl⟩
  exact mul_nonneg (nonneg_getD ha i) (nonneg_getD hv (k - i))

/-- The full convolution of nonnegative columns is nonnegative. -/
theorem convolveFull_nonneg {a v : List Rat} (ha : NonnegList a)
    (hv : NonnegList v) : NonnegList (convolveFull a v) := by
  intro x hx
  rcases List.mem_map.1 hx with ⟨k, _, rfl⟩
  exact convEntry_nonneg ha hv k

/-- The "same"-mode convolution of nonnegative columns is nonnegative. -/
theorem convolveSame_nonneg {a v : List Rat} (ha : NonnegList a)
    (hv : NonnegList v) : NonnegList (convolveSame a v) := by
  intro x hx
  exact convolveFull_nonneg ha hv _
    (List.mem_of_mem_drop (List.mem_of_mem_take hx))

/-- Reversal preserves nonnegativity. -/
theorem reverse_nonneg {l : List Rat} (h : NonnegList l) :
    NonnegList l.reverse := by
  intro x hx
  exact h x (List.mem_reverse.1 hx)

/-- Renormalising a nonnegative column keeps it nonnegative. -/
theorem normalizeFreq_nonneg {l : List Rat} (h : NonnegList l) :
    NonnegList (normalizeFreq l) := by
  intro x hx
  rcases List.mem_map.1 hx with ⟨y, hy, rfl⟩
  exact div_nonneg (h y hy) (List.sum_nonneg h)

/-- Masked sums of nonnegative columns are nonnegative. -/
theorem zipWith_mask_sum_nonneg (p : Int → Bool) (d : List Int)
    {f : List Rat} (hf : NonnegList f) :
    0 ≤ (List.zipWith (fun δ x => if p δ then x else 0) d f).sum := by
  induction d generalizing f with
  | nil => simp
  | cons δ d ih =>
    cases f with
    | nil => simp
    | cons x f =>
      rw [List.zipWith_cons_cons, List.sum_cons]
      have hx : (0 : Rat) ≤ x := hf x (List.mem_cons_self x f)
      have hf' : NonnegList f := fun y hy => hf y (List.mem_cons_of_mem _ hy)
      have hhead : (0 : Rat) ≤ if p δ then x else 0 := by
        by_cases hp : p δ <;> simp [hp, hx]
      exact add_nonneg hhead (ih hf')

/-- Filter-sums of nonnegative columns are nonnegative. -/
theorem dfFilterSum_nonneg (p : Int → Bool) (d : List Int) {f : List Rat}
    (hf : NonnegList f) : 0 ≤ dfFilterSum p d f := by
  rw [dfFilterSum_eq_zipWith]
  exact zipWith_mask_sum_nonneg p d hf

/-- Pointwise comparison of equal-length frequency columns. -/
def PtwiseLE (f g : List Rat) : Prop :=
  f.length = g.length ∧ ∀ i, f.getD i 0 ≤ g.getD i 0

/-- Defaulted indexing into a mapped range. -/
theorem getD_map_range (e : Nat → Rat) (n i : Nat) :
    ((List.range n).map e).getD i 0 = if i < n then e i else 0 := by
  by_cases hi : i < n
  · have hi' : i < ((List.range n).map e).length := by
      rw [List.length_map, List.length_range]
      exact hi
    rw [List.getD_eq_getElem _ _ hi', List.getElem_map, List.getElem_range, if_pos hi]
  · have hi' : ((List.range n).map e).length ≤ i := by
      rw [List.length_map, List.length_range]
      exact le_of_not_lt hi
    rw [List.getD_eq_default _ _ hi', if_neg hi]

/-- Defaulted indexing into a dropped list. -/
theorem getD_drop (l : List Rat) (m i : Nat) :
    (l.drop m).getD i 0 = l.getD (m + i) 0 := by
  by_cases hi : i < (l.drop m).length
  · have hmi : m + i < l.length := by
      rw [List.length_drop] at hi
      omega
    rw [List.getD_eq_getElem _ _ hi, List.getD_eq_getElem _ _ hmi, List.getElem_drop]
  · have h1 : (l.drop m).length ≤ i := le_of_not_lt hi
    have h2 : l.length ≤ m + i := by
      rw [List.length_drop] at h1
      omega
    rw [List.getD_eq_default _ _ h1, List.getD_eq_default _ _ h2]

/-- Defaulted indexing into a truncated list. -/
theorem getD_take (l : List Rat) (n i : Nat) :
    (l.take n).getD i 0 = if i < n then l.getD i 0 else 0 := by
  by_cases hi : i < n
  · rw [if_pos hi]
    by_cases hil : i < l.length
    · have hi' : i < (l.take n).length := by
        rw [List.length_take]
        omega
      rw [List.getD_eq_getElem _ _ hi', List.getD_eq_getElem _ _ hil, List.getElem_take]
    · have h1 : (l.take n).length ≤ i := by
        rw [List.length_take]
        omega
      rw [List.getD_eq_default _ _ h1, List.getD_eq_default _ _ (le_of_not_lt hil)]
  · have h1 : (l.take n).length ≤ i := by
      rw [List.length_take]
      omega
    rw [List.getD_eq_default _ _ h1, if_neg hi]

/-- Convolution entries are monotone in the first operand when the second
is nonnegative. -/
theorem convEntry_mono {a b v : List Rat} (hv : NonnegList v)
    (hab : ∀ i, a.getD i 0 ≤ b.getD i 0) (k : Nat) :
    convEntry a v k ≤ convEntry b v k := by
  apply List.sum_le_sum
  intro i _
  exact mul_le_mul_of_nonneg_right (hab i) (nonneg_getD hv (k - i))

/-- The full convolution is pointwise monotone in its first operand. -/
theorem ptwise_convolveFull {a b v : List Rat} (hv : NonnegList v)
    (h : PtwiseLE a b) : PtwiseLE (convolveFull a v) (convolveFull b v) := by
  obtain ⟨hlen, hle⟩ := h
  constructor
  · unfold convolveFull
    rw [List.length_map, List.length_map, List.length_range, List.length_range, hlen]
  · intro i
    unfold convolveFull
    rw [getD_map_range, getD_map_range, hlen]
    by_cases hi : i < b.length + v.length - 1
    · rw [if_pos hi, if_pos hi]
      exact convEntry_mono hv hle i
    · rw [if_neg hi, if_neg hi]

/-- Dropping preserves the pointwise order. -/
theorem ptwise_drop (m : Nat) {f g : List Rat} (h : PtwiseLE f g) :
    PtwiseLE (f.drop m) (g.drop m) := by
  obtain ⟨hlen, hle⟩ := h
  exact ⟨by rw [List.length_drop, List.length_drop, hlen],
    fun i => by rw [getD_drop, getD_drop]; exact hle (m + i)⟩

/-- Truncation preserves the pointwise order. -/
theorem ptwise_take (n : Nat) {f g : List Rat} (h : PtwiseLE f g) :
    PtwiseLE (f.take n) (g.take n) := by
  obtain ⟨hlen, hle⟩ := h
  refine ⟨by rw [List.length_take, List.length_take, hlen], fun i => ?_⟩
  rw [getD_take, getD_take]
  by_cases hi : i < n
  · rw [if_pos hi, if_pos hi]
    exact hle i
  · rw [if_neg hi, if_neg hi]

/-- The "same"-mode convolution is pointwise monotone in its first
operand. -/
theorem ptwise_convolveSame {a b v : List Rat} (hv : NonnegList v)
    (h : PtwiseLE a b) : PtwiseLE (convolveSame a v) (convolveSame b v) := by
  have hlen : a.length = b.length := h.1
  unfold convolveSame
  rw [← hlen]
  exact ptwise_take _ (ptwise_drop _ (ptwise_convolveFull hv h))

/-- Masked sums are monotone in the frequency column. -/
theorem zipWith_mask_sum_mono (p : Int → Bool) (d : List Int)
    {f g : List Rat} (h : PtwiseLE f g) :
    (List.zipWith (fun δ x => if p δ then x else 0) d f).sum ≤
      (List.zipWith (fun δ x => if p δ then x else 0) d g).sum := by
  induction d generalizing f g with
  | nil => simp
  | cons δ d ih =>
    obtain ⟨hlen, hle⟩ := h
    cases f with
    | nil =>
      cases g with
      | nil => simp
      | cons y g => simp at hlen
    | cons x f =>
      cases g with
      | nil => simp at hlen
      | cons y g =>
        rw [List.zipWith_cons_cons, List.zipWith_cons_cons, List.sum_cons, List.sum_cons]
        have hxy : x ≤ y := by
          have h0 := hle 0
          rwa [List.getD_cons_zero, List.getD_cons_zero] at h0
        have htail : PtwiseLE f g := by
          refine ⟨by simpa using hlen, fun i => ?_⟩
          have hs := hle (i + 1)
          rwa [List.getD_cons_succ, List.getD_cons_succ] at hs
        have hhead : (if p δ then x else 0) ≤ (if p δ then y else 0) := by
          by_cases hp : p δ <;> simp [hp, hxy]
        exact add_le_add hhead (ih htail)

/-- Defaulted indexing commutes with scaling a column. -/
theorem getD_map_mul (c : Rat) (l : List Rat) (i : Nat) :
    (l.map (fun x => x * c)).getD i 0 = l.getD i 0 * c := by
  by_cases hi : i < l.length
  · have hi' : i < (l.map (fun x => x * c)).length := by
      rw [List.length_map]
      exact hi
    rw [List.getD_eq_getElem _ _ hi', List.getD_eq_getElem _ _ hi, List.getElem_map]
  · have hi' : (l.map (fun x => x * c)).length ≤ i := by
      rw [List.length_map]
      exact le_of_not_lt hi
    rw [List.getD_eq_default _ _ hi', List.getD_eq_default _ _ (le_of_not_lt hi), zero_mul]

/-- Convolution entries are linear under scaling of the first operand. -/
theorem convEntry_map_mul (c : Rat) (a v : List Rat) (k : Nat) :
    convEntry (a.map (fun x => x * c)) v k = convEntry a v k * c := by
  unfold convEntry
  rw [← List.sum_map_mul_right]
  apply congrArg
  apply List.map_congr_left
  intro i _
  rw [getD_map_mul]
  ring

/-- The full convolution is linear under scaling of the first operand. -/
theorem convolveFull_map_mul (c : Rat) (a v : List Rat) :
    convolveFull (a.map (fun x => x * c)) v =
      (convolveFull a v).map (fun x => x * c) := by
  unfold convolveFull
  rw [List.length_map, List.map_map]
  apply List.map_congr_left
  intro k _
  rw [Function.comp_apply, convEntry_map_mul]

/-- The "same"-mode convolution is linear under scaling of the first
operand. -/
theorem convolveSame_map_mul (c : Rat) (a v : List Rat) :
    convolveSame (a.map (fun x => x * c)) v =
      (convolveSame a v).map (fun x => x * c) := by
  unfold convolveSame
  rw [convolveFull_map_mul, List.length_map, ← List.map_drop, ← List.map_take]

/-- Masked sums are linear under scaling of the frequency column. -/
theorem zipWith_mask_sum_map_mul (p : Int → Bool) (d : List Int) (c : Rat)
    (f : List Rat) :
    (List.zipWith (fun δ x => if p δ then x else 0) d (f.map (fun x => x * c))).sum =
      (List.zipWith (fun δ x => if p δ then x else 0) d f).sum * c := by
  induction d generalizing f with
  | nil => simp
  | cons δ d ih =>
    cases f with
    | nil => simp
    | cons x f =>
      rw [List.map_cons, List.zipWith_cons_cons, List.zipWith_cons_cons,
        List.sum_cons, List.sum_cons, ih f, add_mul]
      apply congrArg (fun t => t + (List.zipWith (fun δ x => if p δ then x else 0) d f).sum * c)
      by_cases hp : p δ <;> simp [hp]

/-- The total mass surviving the hard-zero filter equals the filter-sum of
the nonnegative-delay rows, i.e. the `adherence_symptom_isolation_impact`
computed by `TT_model_rum`. -/
theorem hardZero_sum (sst : DelayPMF) :
    (hardZeroNegative sst).frequency.sum =
      dfFilterSum (fun d => decide (0 ≤ d)) sst.delay sst.frequency := by
  rw [dfFilterSum_eq_zipWith]
  unfold hardZeroNegative
  have hfun : (fun (d : Int) (x : Rat) => if d < 0 then (0 : Rat) else x) =
      (fun (d : Int) (x : Rat) => if decide (0 ≤ d) = true then x else 0) := by
    funext d x
    by_cases hd : d < 0
    · rw [if_pos hd, if_neg (by simpa using not_le.2 hd)]
    · rw [if_neg hd, if_pos (by simpa using not_lt.1 hd)]
  rw [hfun]

/-- The hard-zero filter keeps the column nonnegative. -/
theorem hardZero_nonneg {sst : DelayPMF} (h : NonnegList sst.frequency) :
    NonnegList (hardZeroNegative sst).frequency := by
  intro x hx
  rcases List.mem_iff_getElem.1 hx with ⟨i, hi, rfl⟩
  have hi2 : i < sst.frequency.length := by
    have := hi
    unfold hardZeroNegative at this
    rw [List.length_zipWith] at this
    omega
  have hiz : i < (List.zipWith (fun d x => if d < 0 then 0 else x)
      sst.delay sst.frequency).length := hi
  have hi1 : i < sst.delay.length := by
    have hcopy := hi
    unfold hardZeroNegative at hcopy
    rw [List.length_zipWith] at hcopy
    omega
  show (0 : Rat) ≤
    (List.zipWith (fun d x => if d < 0 then 0 else x) sst.delay sst.frequency)[i]
  rw [List.getElem_zipWith]
  by_cases hd : sst.delay[i] < 0
  · rw [if_pos hd]
  · rw [if_neg hd]
    exact h _ (List.getElem_mem hi2)

/-- The hard-zero filter decreases the column pointwise. -/
theorem hardZero_ptwise {sst : DelayPMF}
    (hlen : sst.delay.length = sst.frequency.length)
    (h : NonnegList sst.frequency) :
    PtwiseLE (hardZeroNegative sst).frequency sst.frequency := by
  have hzlen : (hardZeroNegative sst).frequency.length = sst.frequency.length := by
    unfold hardZeroNegative
    rw [List.length_zipWith, hlen, min_self]
  refine ⟨hzlen, fun i => ?_⟩
  by_cases hi : i < sst.frequency.length
  · have hi' : i < (hardZeroNegative sst).frequency.length := by
      rw [hzlen]
      exact hi
    rw [List.getD_eq_getElem _ _ hi', List.getD_eq_getElem _ _ hi]
    show (List.zipWith (fun d x => if d < 0 then 0 else x) sst.delay sst.frequency)[i] ≤ _
    rw [List.getElem_zipWith]
    by_cases hd : sst.delay[i] < 0
    · rw [if_pos hd]
      exact h _ (List.getElem_mem hi)
    · rw [if_neg hd]
  · rw [List.getD_eq_default _ _ (le_of_not_lt hi),
      List.getD_eq_default _ _ (by rw [hzlen]; exact le_of_not_lt hi)]

/-- Core inequality behind monotonicity of `transmission_averted`: the
mass surviving the hard-zero filter times the conditional contact impact
(computed from the renormalised filtered distribution) never exceeds the
unconditional contact impact, for a consistent bundle. -/
theorem hz_mass_mul_cond_le_impact (si sst ttc : DelayPMF)
    (hlen : sst.delay.length = sst.frequency.length)
    (hsi : NonnegList si.frequency) (hsst : NonnegList sst.frequency)
    (httc : NonnegList ttc.frequency) :
    (hardZeroNegative sst).frequency.sum *
      dfFilterSum (fun d => decide (0 < d)) sst.delay
        (convolveSame
          (convolveSame (normalizeFreq (hardZeroNegative sst).frequency) si.frequency)
          ttc.frequency.reverse) ≤
    dfFilterSum (fun d => decide (0 < d)) sst.delay
      (convolveSame (convolveSame sst.frequency si.frequency)
        ttc.frequency.reverse) := by
  by_cases hs : (hardZeroNegative sst).frequency.sum = 0
  · rw [hs, zero_mul]
    exact dfFilterSum_nonneg _ _
      (convolveSame_nonneg (convolveSame_nonneg hsst hsi) (reverse_nonneg httc))
  · have hnorm : normalizeFreq (hardZeroNegative sst).frequency =
        (hardZeroNegative sst).frequency.map
          (fun x => x * ((hardZeroNegative sst).frequency.sum)⁻¹) := by
      unfold normalizeFreq
      apply List.map_congr_left
      intro y _
      rw [div_eq_mul_inv]
    rw [hnorm, convolveSame_map_mul, convolveSame_map_mul,
      dfFilterSum_eq_zipWith, zipWith_mask_sum_map_mul, dfFilterSum_eq_zipWith]
    rw [mul_comm ((hardZeroNegative sst).frequency.sum), mul_assoc,
      inv_mul_cancel₀ hs, mul_one]
    apply zipWith_mask_sum_mono
    apply ptwise_convolveSame (reverse_nonneg httc)
    apply ptwise_convolveSame hsi
    exact hardZero_ptwise hlen hsst

/-- Claim C2: with the other five scenario parameters in `[0, 1]`, a
consistency-generated time-to-tertiary-infection distribution, and
nonnegative frequency columns, raising `compliance_with_contact_isolation`
does not decrease `contact_isolation_success` or `transmission_averted`
in the result record of `TT_model_rum`. -/
theorem claim_c2_monotonicity
    (asc rate pn cst csnt c1 c2 : Rat) (si sst ttc : DelayPMF)
    (hasc0 : 0 ≤ asc) (hasc1 : asc ≤ 1)
    (hrate0 : 0 ≤ rate) (hrate1 : rate ≤ 1)
    (hpn : 0 ≤ pn)
    (hcst0 : 0 ≤ cst) (hcst1 : cst ≤ 1)
    (hcsnt0 : 0 ≤ csnt) (hcsnt1 : csnt ≤ 1)
    (hc : c1 ≤ c2)
    (hlen : sst.delay.length = sst.frequency.length)
    (hsi : NonnegList si.frequency) (hsst : NonnegList sst.frequency)
    (httc : NonnegList ttc.frequency) :
    (TT_model_rum asc rate pn cst csnt c1 si sst
        (get_time_to_tertiary_infection sst si) ttc).contact_isolation_success ≤
      (TT_model_rum asc rate pn cst csnt c2 si sst
        (get_time_to_tertiary_infection sst si) ttc).contact_isolation_success ∧
    (TT_model_rum asc rate pn cst csnt c1 si sst
        (get_time_to_tertiary_infection sst si) ttc).transmission_averted ≤
      (TT_model_rum asc rate pn cst csnt c2 si sst
        (get_time_to_tertiary_infection sst si) ttc).transmission_averted := by
  have e_cis : ∀ c : Rat,
      (TT_model_rum asc rate pn cst csnt c si sst
        (get_time_to_tertiary_infection sst si) ttc).contact_isolation_success =
      rate * asc * pn * c *
        dfFilterSum (fun d => decide (0 < d)) sst.delay
          (convolveSame (convolveSame sst.frequency si.frequency)
            ttc.frequency.reverse) :=
    fun c => rfl
  have e_ta : ∀ c : Rat,
      (TT_model_rum asc rate pn cst csnt c si sst
        (get_time_to_tertiary_infection sst si) ttc).transmission_averted =
      dfFilterSum (fun d => decide (0 ≤ d)) sst.delay sst.frequency *
        (rate * asc * cst + (1 - asc) * rate * csnt) +
      rate * asc * pn * c *
        dfFilterSum (fun d => decide (0 < d)) sst.delay
          (convolveSame (convolveSame sst.frequency si.frequency)
            ttc.frequency.reverse) -
      dfFilterSum (fun d => decide (0 ≤ d)) sst.delay sst.frequency *
        (rate * asc * cst + (1 - asc) * rate * csnt) *
        rate * asc * pn * c *
        dfFilterSum (fun d => decide (0 < d)) sst.delay
          (convolveSame
            (convolveSame (normalizeFreq (hardZeroNegative sst).frequency)
              si.frequency)
            ttc.frequency.reverse) :=
    fun c => rfl
  have hA1 : rate * asc * cst + (1 - asc) * rate * csnt ≤ 1 := by
    have h1 : rate * asc * cst ≤ rate * asc :=
      mul_le_of_le_one_right (mul_nonneg hrate0 hasc0) hcst1
    have h2 : (1 - asc) * rate * csnt ≤ (1 - asc) * rate :=
      mul_le_of_le_one_right (mul_nonneg (by linarith) hrate0) hcsnt1
    have h3 : rate * asc + (1 - asc) * rate = rate := by ring
    linarith
  have hP0 : 0 ≤ dfFilterSum (fun d => decide (0 ≤ d)) sst.delay sst.frequency :=
    dfFilterSum_nonneg _ _ hsst
  have hI0 : 0 ≤ dfFilterSum (fun d => decide (0 < d)) sst.delay
      (convolveSame (convolveSame sst.frequency si.frequency)
        ttc.frequency.reverse) :=
    dfFilterSum_nonneg _ _
      (convolveSame_nonneg (convolveSame_nonneg hsst hsi) (reverse_nonneg httc))
  have hJ0 : 0 ≤ dfFilterSum (fun d => decide (0 < d)) sst.delay
      (convolveSame
        (convolveSame (normalizeFreq (hardZeroNegative sst).frequency)
          si.frequency)
        ttc.frequency.reverse) :=
    dfFilterSum_nonneg _ _
      (convolveSame_nonneg
        (convolveSame_nonneg (normalizeFreq_nonneg (hardZero_nonneg hsst)) hsi)
        (reverse_nonneg httc))
  have hPJ : dfFilterSum (fun d => decide (0 ≤ d)) sst.delay sst.frequency *
      dfFilterSum (fun d => decide (0 < d)) sst.delay
        (convolveSame
          (convolveSame (normalizeFreq (hardZeroNegative sst).frequency)
            si.frequency)
          ttc.frequency.reverse) ≤
      dfFilterSum (fun d => decide (0 < d)) sst.delay
        (convolveSame (convolveSame sst.frequency si.frequency)
          ttc.frequency.reverse) := by
    rw [← hardZero_sum sst]
    exact hz_mass_mul_cond_le_impact si sst ttc hlen hsi hsst httc
  have hkey : dfFilterSum (fun d => decide (0 ≤ d)) sst.delay sst.frequency *
      (rate * asc * cst + (1 - asc) * rate * csnt) *
      dfFilterSum (fun d => decide (0 < d)) sst.delay
        (convolveSame
          (convolveSame (normalizeFreq (hardZeroNegative sst).frequency)
            si.frequency)
          ttc.frequency.reverse) ≤
      dfFilterSum (fun d => decide (0 < d)) sst.delay
        (convolveSame (convolveSame sst.frequency si.frequency)
          ttc.frequency.reverse) := by
    have h5 : (rate * asc * cst + (1 - asc) * rate * csnt) *
        (dfFilterSum (fun d => decide (0 ≤ d)) sst.delay sst.frequency *
          dfFilterSum (fun d => decide (0 < d)) sst.delay
            (convolveSame
              (convolveSame (normalizeFreq (hardZeroNegative sst).frequency)
                si.frequency)
              ttc.frequency.reverse)) ≤
        dfFilterSum (fun d => decide (0 ≤ d)) sst.delay sst.frequency *
          dfFilterSum (fun d => decide (0 < d)) sst.delay
            (convolveSame
              (convolveSame (normalizeFreq (hardZeroNegative sst).frequency)
                si.frequency)
              ttc.frequency.reverse) :=
      mul_le_of_le_one_left (mul_nonneg hP0 hJ0) hA1
    nlinarith [h5, hPJ]
  constructor
  · rw [e_cis c1, e_cis c2]
    have hfac : 0 ≤ rate * asc * pn * (c2 - c1) *
        dfFilterSum (fun d => decide (0 < d)) sst.delay
          (convolveSame (convolveSame sst.frequency si.frequency)
            ttc.frequency.reverse) :=
      mul_nonneg (mul_nonneg (mul_nonneg (mul_nonneg hrate0 hasc0) hpn)
        (by linarith)) hI0
    nlinarith [hfac]
  · rw [e_ta c1, e_ta c2]
    have hfac2 : 0 ≤ rate * asc * pn * (c2 - c1) *
        (dfFilterSum (fun d => decide (0 < d)) sst.delay
          (convolveSame (convolveSame sst.frequency si.frequency)
            ttc.frequency.reverse) -
         dfFilterSum (fun d => decide (0 ≤ d)) sst.delay sst.frequency *
          (rate * asc * cst + (1 - asc) * rate * csnt) *
          dfFilterSum (fun d => decide (0 < d)) sst.delay
            (convolveSame
              (convolveSame (normalizeFreq (hardZeroNegative sst).frequency)
                si.frequency)
              ttc.frequency.reverse)) :=
      mul_nonneg (mul_nonneg (mul_nonneg (mul_nonneg hrate0 hasc0) hpn)
        (by linarith)) (by linarith [hkey])
    nlinarith [hfac2]

/-- Claim C2 witness: the monotonicity theorem evaluated at concrete
parameters and a concrete consistent bundle. -/
theorem claim_c2_monotonicity_witness :
    (TT_model_rum (1/2) (1/2) (1/2) (1/2) (1/2) (1/4) centerPMF centerPMF
        (get_time_to_tertiary_infection centerPMF centerPMF) centerPMF).contact_isolation_success ≤
      (TT_model_rum (1/2) (1/2) (1/2) (1/2) (1/2) (3/4) centerPMF centerPMF
        (get_time_to_tertiary_infection centerPMF centerPMF) centerPMF).contact_isolation_success ∧
    (TT_model_rum (1/2) (1/2) (1/2) (1/2) (1/2) (1/4) centerPMF centerPMF
        (get_time_to_tertiary_infection centerPMF centerPMF) centerPMF).transmission_averted ≤
      (TT_model_rum (1/2) (1/2) (1/2) (1/2) (1/2) (3/4) centerPMF centerPMF
        (get_time_to_tertiary_infection centerPMF centerPMF) centerPMF).transmission_averted :=
  claim_c2_monotonicity (1/2) (1/2) (1/2) (1/2) (1/2) (1/4) (3/4)
    centerPMF centerPMF centerPMF
    (by norm_num) (by norm_num) (by norm_num) (by norm_num) (by norm_num)
    (by norm_num) (by norm_num) (by norm_num) (by norm_num) (by norm_num)
    rfl
    (by intro x hx; simp only [centerPMF, List.mem_cons, List.not_mem_nil, or_false] at hx; rcases hx with h | h | h <;> norm_num [h])
    (by intro x hx; simp only [centerPMF, List.mem_cons, List.not_mem_nil, or_false] at hx; rcases hx with h | h | h <;> norm_num [h])
    (by intro x hx; simp only [centerPMF, List.mem_cons, List.not_mem_nil, or_false] at hx; rcases hx with h | h | h <;> norm_num [h])
